import Mathlib

/-!
Verification of the NRC_Count workshop-coverage tool (src/app.py).

The file embeds the program's components shallowly:
* the column resolver `find_col` (app.py lines 39-51) over Lean `String`s;
* the haversine distance `haversine_km` (lines 89-97) over `ℝ`;
* the per-workshop aggregation loop (lines 103-114), both as the stateful
  loop `runLoop` that writes the scratch `dist_km_to_ws` column into the
  projections table, and as the pure per-row function `compute_coverage`;
* the spec's ranker contract (section 4.3; line 116 delegates the actual
  sort to pandas), the bubble sizing (line 140) and the weight coercion
  (line 84).

Weights are modelled as exact rationals (the float column after
`pd.to_numeric(...).fillna(0)`), coordinates and distances as real numbers.
-/

namespace NRCCount

/-! ### Column resolver (app.py lines 36-51) -/

/-- Python `str.lower()` (ASCII case folding, which covers every header the
program resolves). -/
def pyLower (s : String) : String :=
  String.mk (s.data.map Char.toLower)

/-- Drops leading whitespace characters from a character list. -/
def dropWS : List Char → List Char
  | [] => []
  | c :: cs => if c.isWhitespace then dropWS cs else c :: cs

/-- Python `str.strip()`: surrounding whitespace removed. -/
def pyStrip (s : String) : String :=
  String.mk (dropWS (dropWS s.data.reverse).reverse)

/-- Header normalisation of app.py lines 36-37: every string column name is
stripped of surrounding whitespace before resolution. -/
def normalizeColumns (columns : List String) : List String :=
  columns.map (fun c => pyStrip c)

/-- Does `sub` start the list `ys`? (character-by-character comparison). -/
def startsWithL : List Char → List Char → Bool
  | [], _ => true
  | _ :: _, [] => false
  | a :: as, b :: bs => a == b && startsWithL as bs

/-- Python substring containment `sub in hay` on character lists. -/
def hasSubL (sub : List Char) : List Char → Bool
  | [] => sub.isEmpty
  | c :: cs => startsWithL sub (c :: cs) || hasSubL sub cs

/-- Python `needle in hay` on strings. -/
def strHasSub (hay needle : String) : Bool :=
  hasSubL needle.toList hay.toList

/-- The lookup table of app.py line 40, `cols`: a Python dict comprehension
mapping `col.lower()` to `col` keeps the LAST binding of a repeated key, so
looking a key up returns the last column (in header order) whose lowercase
form equals the key. -/
def colsLookup (columns : List String) (key : String) : Option String :=
  columns.reverse.find? (fun col => pyLower col == key)

/-- Tier 1 of `find_col` (lines 41-43): the first candidate, in candidate
order, that occurs verbatim among the columns. -/
def tierExact (columns candidates : List String) : Option String :=
  candidates.find? (fun cand => columns.contains cand)

/-- Tier 2 of `find_col` (lines 44-46): the first candidate, in candidate
order, whose lowercase form is a key of the `cols` table; the table's value
(the last column with that lowercase form) is returned. -/
def tierCaseless (columns candidates : List String) : Option String :=
  candidates.findSome? (fun cand => colsLookup columns (pyLower cand))

/-- Tier 3 of `find_col` (lines 47-50): the first column, in header order,
whose lowercase form contains the lowercase form of some candidate. -/
def tierContain (columns candidates : List String) : Option String :=
  columns.find? (fun col => candidates.any (fun cand => strHasSub (pyLower col) (pyLower cand)))

/-- `find_col` of app.py lines 39-51: exact tier, then case-insensitive
tier, then substring tier; `none` when no tier matches. -/
def find_col (columns candidates : List String) : Option String :=
  match tierExact columns candidates with
  | some cand => some cand
  | none =>
    match tierCaseless columns candidates with
    | some col => some col
    | none => tierContain columns candidates

/-- The resolver as the spec's sentence reads literally: at every tier, scan
the columns in header order and return the first column matching any
candidate at that tier. -/
def find_col_spec (columns candidates : List String) : Option String :=
  match columns.find? (fun col => candidates.contains col) with
  | some col => some col
  | none =>
    match columns.find? (fun col => candidates.any (fun cand => pyLower cand == pyLower col)) with
    | some col => some col
    | none =>
      columns.find? (fun col => candidates.any (fun cand => strHasSub (pyLower col) (pyLower cand)))

/-! ### Distance primitive (app.py lines 89-97) -/

/-- Two-argument arctangent, the semantics of Python's `math.atan2`
(`math.atan2 0 0 = 0`). -/
noncomputable def atan2 (y x : ℝ) : ℝ :=
  if 0 < x then Real.arctan (y / x)
  else if x < 0 then
    (if 0 ≤ y then Real.arctan (y / x) + Real.pi else Real.arctan (y / x) - Real.pi)
  else
    (if 0 < y then Real.pi / 2 else if y < 0 then -(Real.pi / 2) else 0)

/-- Degrees to radians, `math.radians`. -/
noncomputable def radians (x : ℝ) : ℝ :=
  x * (Real.pi / 180)

/-- The intermediate value `a` of app.py line 95. -/
noncomputable def hava (lat1 lon1 lat2 lon2 : ℝ) : ℝ :=
  Real.sin (radians (lat2 - lat1) / 2) ^ 2 +
    Real.cos (radians lat1) * Real.cos (radians lat2) *
      Real.sin (radians (lon2 - lon1) / 2) ^ 2

/-- `haversine_km` of app.py lines 89-97: the great-circle (haversine)
formula with Earth radius `R = 6371.0` km. -/
noncomputable def haversine_km (lat1 lon1 lat2 lon2 : ℝ) : ℝ :=
  6371 * (2 * atan2 (Real.sqrt (hava lat1 lon1 lat2 lon2))
    (Real.sqrt (1 - hava lat1 lon1 lat2 lon2)))


/-! ### Ingested rows and weight coercion (app.py lines 76-87) -/

/-- A row of `df_ws` after the renaming of line 76 and the coordinate
coercion and `dropna` of lines 80-86. -/
structure WsRow where
  workshop_name : String
  pincode : String
  lat : ℝ
  lon : ℝ

/-- A row of `df_proj` after the renaming of line 77 and the coercion of
lines 82-87, together with the scratch column `dist_km_to_ws` that line 106
writes (absent before the loop first runs, hence an `Option`). The weight
column `nrc_vin_count` produced by `pd.to_numeric(...).fillna(0)` is
modelled as an exact rational. -/
structure ProjRow where
  pincode : String
  lat : ℝ
  lon : ℝ
  nrc_vin_count : ℚ
  dist_km_to_ws : Option ℝ

/-- A row of the `summary` list built at lines 108-114. -/
structure SummaryRow where
  workshop_name : String
  workshop_pincode : String
  workshop_lat : ℝ
  workshop_lon : ℝ
  nrc_vin_count_within_radius : ℤ

/-- The weight coercion of line 84: `pd.to_numeric(col, errors="coerce")`
turns a cell into its parsed number or `NaN` (here `none` for an unparsable
cell), and `.fillna(0)` then replaces `NaN` by `0`. Parsable numbers,
negative ones included, pass through unchanged. -/
def coerceWeight (cell : Option ℚ) : ℚ :=
  cell.getD 0

/-- Python `int(q)`: truncation toward zero of an exact rational. -/
def intTrunc (q : ℚ) : ℤ :=
  if 0 ≤ q then ⌊q⌋ else ⌈q⌉

/-- Python `int(x)`: truncation toward zero of a real. -/
noncomputable def intTruncR (x : ℝ) : ℤ :=
  if 0 ≤ x then ⌊x⌋ else ⌈x⌉

/-! ### Coverage aggregation (app.py lines 103-116) -/

/-- Line 107: the total `nrc_vin_count` over the demand points whose
distance to the workshop is at most `radius_km`, truncated to an integer by
`int(...)`. -/
noncomputable def total_vins (ws : WsRow) (dps : List ProjRow) (radius_km : ℝ) : ℤ :=
  intTrunc (((dps.filter (fun p =>
    decide (haversine_km ws.lat ws.lon p.lat p.lon ≤ radius_km))).map
      (fun p => p.nrc_vin_count)).sum)

/-- The summary record appended at lines 108-114 for one workshop. -/
noncomputable def summaryRow (dps : List ProjRow) (radius_km : ℝ) (ws : WsRow) : SummaryRow :=
  ⟨ws.workshop_name, ws.pincode, ws.lat, ws.lon, total_vins ws dps radius_km⟩

/-- The coverage computation of the loop at lines 103-114, as the pure
per-row function it computes: one summary row per workshop row, in input
order. -/
noncomputable def compute_coverage (wss : List WsRow) (dps : List ProjRow)
    (radius_km : ℝ) : List SummaryRow :=
  wss.map (summaryRow dps radius_km)

/-- The sum that section 3 of the spec describes: the weights of exactly
those demand points whose great-circle distance to the service location is
at most `radius_km` (boundary inclusive), summed exactly (no truncation). -/
noncomputable def sumWeightsWithin (ws : WsRow) (dps : List ProjRow) (radius_km : ℝ) : ℚ :=
  ((dps.filter (fun p =>
    decide (haversine_km ws.lat ws.lon p.lat p.lon ≤ radius_km))).map
      (fun p => p.nrc_vin_count)).sum

/-! ### The summary loop as a state transformer (app.py lines 103-114) -/

/-- The mutable state the loop at lines 103-114 touches: the two dataframes
and the growing `summary` list. -/
structure LoopState where
  df_ws : List WsRow
  df_proj : List ProjRow
  summary : List SummaryRow

/-- One iteration of the loop: line 106 writes the `dist_km_to_ws` column
into `df_proj` (overwriting whatever a previous iteration left there), line
107 filters on the stored column and sums, lines 108-114 append the summary
record. -/
noncomputable def loopStep (radius_km : ℝ) (st : LoopState) (ws : WsRow) : LoopState :=
  let dps' := st.df_proj.map (fun p =>
    { p with dist_km_to_ws := some (haversine_km ws.lat ws.lon p.lat p.lon) })
  let tv := intTrunc (((dps'.filter (fun p =>
    decide (p.dist_km_to_ws.getD 0 ≤ radius_km))).map (fun p => p.nrc_vin_count)).sum)
  ⟨st.df_ws, dps', st.summary ++ [⟨ws.workshop_name, ws.pincode, ws.lat, ws.lon, tv⟩]⟩

/-- The whole loop of lines 103-114, started on the ingested dataframes
(`dist_km_to_ws` not yet present) and an empty `summary`. -/
noncomputable def runLoop (wss : List WsRow) (dps : List ProjRow) (radius_km : ℝ) : LoopState :=
  wss.foldl (loopStep radius_km) ⟨wss, dps, []⟩

/-- A projection row without the scratch distance column: the demand point
data the ingestion produced. -/
def coreProj (p : ProjRow) : ProjRow :=
  { p with dist_km_to_ws := none }

/-! ### Summary ranking (spec section 4.3; the code's line 116 delegates to
pandas `sort_values` with its default unstable quicksort kind) -/

/-- Stable insertion of a summary row in front of the first row whose
weight is not larger: rows with equal weight keep their original relative
order. Helper realizing the spec-modelled ranker `rank` below. -/
def insertDesc (s : SummaryRow) : List SummaryRow → List SummaryRow
  | [] => [s]
  | t :: ts =>
    if t.nrc_vin_count_within_radius ≤ s.nrc_vin_count_within_radius
    then s :: t :: ts
    else t :: insertDesc s ts

/-- Modelled from the spec: the `rank` contract of section 4.3 — sorted by
`total_weight` descending, ties broken by stable original input order. No
code in this repository implements that ordering: line 116 calls pandas
`sort_values('nrc_vin_count_within_radius', ascending=False)` with the
default `kind='quicksort'` (numpy introsort, third-party code), whose
equal-key order is unspecified — pandas documents only the mergesort/stable
kinds as stable. -/
def rank : List SummaryRow → List SummaryRow
  | [] => []
  | s :: ss => insertDesc s (rank ss)

/-! ### Bubble sizing (app.py lines 137-141) -/

/-- Line 140 of app.py, the bubble radius in metres:
`200 + (0 if max_vins==0 else int(8000 * (count / max_vins)**0.5))`. -/
noncomputable def radius_m (count max_vins : ℤ) : ℝ :=
  200 + (if max_vins = 0 then 0
    else (intTruncR (8000 * Real.sqrt ((count : ℝ) / (max_vins : ℝ))) : ℝ))

/-- The bubble-size contract stated in section 4.4 of the spec, as the
spec's words read:
`min_size + (0 if max_weight_in_set == 0 else max_extra * sqrt(total_weight / max_weight_in_set))`. -/
noncomputable def bubble_size (total_weight max_weight_in_set min_size max_extra : ℝ) : ℝ :=
  min_size + (if max_weight_in_set = 0 then 0
    else max_extra * Real.sqrt (total_weight / max_weight_in_set))

/-- The mapping the code implements, generalised to the contract's four
parameters: the extra term is truncated to an integer exactly as line 140
does with `int(...)`. -/
noncomputable def bubble_size_code (total_weight max_weight_in_set min_size max_extra : ℝ) : ℝ :=
  min_size + (if max_weight_in_set = 0 then 0
    else (intTruncR (max_extra * Real.sqrt (total_weight / max_weight_in_set)) : ℝ))

/-! Basic facts about `find?`, `findSome?` and the lookup table. -/

theorem find?_eq_head?_filter {α : Type} (p : α → Bool) (l : List α) :
    l.find? p = (l.filter p).head? := by
  induction l with
  | nil => rfl
  | cons a as ih =>
    by_cases h : p a
    · rw [List.find?_cons_of_pos _ h, List.filter_cons_of_pos h, List.head?_cons]
    · rw [List.find?_cons_of_neg _ h, List.filter_cons_of_neg h, ih]

theorem reverse_find?_eq_getLast?_filter {α : Type} (p : α → Bool) (l : List α) :
    l.reverse.find? p = (l.filter p).getLast? := by
  rw [find?_eq_head?_filter, List.filter_reverse, List.head?_reverse]

theorem colsLookup_eq_getLast? (columns : List String) (key : String) :
    colsLookup columns key = (columns.filter (fun col => pyLower col == key)).getLast? := by
  unfold colsLookup
  exact reverse_find?_eq_getLast?_filter _ _

theorem findSome?_eq_of_find? {α β : Type} (f : α → Option β) (l : List α) (a : α)
    (h : l.find? (fun x => (f x).isSome) = some a) : l.findSome? f = f a := by
  induction l with
  | nil => simp [List.find?] at h
  | cons x xs ih =>
    cases hfx : f x with
    | some b =>
      have hfind : List.find? (fun y => (f y).isSome) (x :: xs) = some x := by
        apply List.find?_cons_of_pos
        simp [hfx]
      rw [hfind] at h
      obtain rfl : x = a := by simpa using h
      simp [List.findSome?_cons, hfx]
    | none =>
      have hneg : ¬ ((fun y => (f y).isSome) x = true) := by simp [hfx]
      rw [List.find?_cons_of_neg (p := fun y => (f y).isSome) _ hneg] at h
      simp [List.findSome?_cons, hfx, ih h]

/-- C7 (counterexample): with headers `["LAT", "Lat"]` and the single
candidate `"lat"`, the program's resolver returns the last case-duplicate
column `"Lat"`, while the claim's reading (the first column name matching
any candidate at the case-insensitive tier) gives `"LAT"`. -/
theorem claim_C7_counterexample :
    find_col ["LAT", "Lat"] ["lat"] = some "Lat" ∧
    find_col_spec ["LAT", "Lat"] ["lat"] = some "LAT" ∧
    find_col ["LAT", "Lat"] ["lat"] ≠ find_col_spec ["LAT", "Lat"] ["lat"] :=
  ⟨by decide, by decide, by decide⟩

/-- C7 (amended): the resolver tries the exact tier, then the
case-insensitive tier, then the substring tier, in that priority order, and
returns none only when no tier matches; within the exact and
case-insensitive tiers the candidates are scanned in candidate order and the
first matching candidate wins; at the case-insensitive tier the returned
column is the last header (in header order) whose lowercase form equals the
winning candidate's, because the lookup table overwrites case-duplicates; at
the substring tier the columns are scanned in header order and the first
column containing any candidate is returned; candidates
`["Latitude", "Lat"]` against the header `"lat "` (trimmed to `"lat"`)
resolve via the case-insensitive tier to `"lat"`. -/
theorem claim_C7 :
    (∀ columns candidates x, tierExact columns candidates = some x →
      find_col columns candidates = some x) ∧
    (∀ columns candidates x, tierExact columns candidates = none →
      tierCaseless columns candidates = some x →
      find_col columns candidates = some x) ∧
    (∀ columns candidates, tierExact columns candidates = none →
      tierCaseless columns candidates = none →
      find_col columns candidates = tierContain columns candidates) ∧
    (∀ columns key, colsLookup columns key =
      (columns.filter (fun col => pyLower col == key)).getLast?) ∧
    (find_col (normalizeColumns ["lat "]) ["Latitude", "Lat"] = some "lat" ∧
      tierExact (normalizeColumns ["lat "]) ["Latitude", "Lat"] = none) := by
  refine ⟨?_, ?_, ?_, colsLookup_eq_getLast?, by decide, by decide⟩
  · intro columns candidates x h
    simp [find_col, h]
  · intro columns candidates x h1 h2
    simp [find_col, h1, h2]
  · intro columns candidates h1 h2
    simp [find_col, h1, h2]

/-- Witness for C7 (amended) at headers `["lat"]` and candidates
`["Latitude", "Lat"]`: the exact tier misses, the case-insensitive tier
returns `"lat"`, so the resolver returns `"lat"`. -/
theorem claim_C7_witness :
    tierExact ["lat"] ["Latitude", "Lat"] = none ∧
    tierCaseless ["lat"] ["Latitude", "Lat"] = some "lat" ∧
    find_col ["lat"] ["Latitude", "Lat"] = some "lat" :=
  ⟨by decide, by decide,
    claim_C7.2.1 ["lat"] ["Latitude", "Lat"] "lat" (by decide) (by decide)⟩

/-- C10: when the exact tier fails and `cand` is the first candidate whose
lowercase form occurs among the lowered headers, the resolver returns the
last column in header order whose lowercase form equals `cand`'s (not the
first), because the lowercase-to-original table is built by overwriting
earlier entries with later ones. -/
theorem claim_C10 (columns candidates : List String) (cand : String)
    (h1 : tierExact columns candidates = none)
    (h2 : candidates.find? (fun c => (colsLookup columns (pyLower c)).isSome) = some cand) :
    find_col columns candidates =
      (columns.filter (fun col => pyLower col == pyLower cand)).getLast? := by
  have h3 : tierCaseless columns candidates = colsLookup columns (pyLower cand) :=
    findSome?_eq_of_find? (fun c => colsLookup columns (pyLower c)) candidates cand h2
  have hp : (colsLookup columns (pyLower cand)).isSome = true := by
    simpa using List.find?_some h2
  obtain ⟨v, hv⟩ := Option.isSome_iff_exists.mp hp
  rw [hv] at h3
  simp only [find_col, h1, h3]
  rw [← colsLookup_eq_getLast?]
  exact hv.symm

/-- Witness for C10 at headers `["LAT", "Lat"]` and candidate `"lat"`: both
headers match case-insensitively and the resolver returns the last one,
`"Lat"`. -/
theorem claim_C10_witness :
    tierExact ["LAT", "Lat"] ["lat"] = none ∧
    List.find? (fun c => (colsLookup ["LAT", "Lat"] (pyLower c)).isSome) ["lat"] = some "lat" ∧
    find_col ["LAT", "Lat"] ["lat"] = some "Lat" :=
  ⟨by decide, by decide,
    (claim_C10 ["LAT", "Lat"] ["lat"] "lat" (by decide) (by decide)).trans (by decide)⟩

theorem arctan_nonneg' {x : ℝ} (h : 0 ≤ x) : 0 ≤ Real.arctan x := by
  have := Real.arctan_strictMono.monotone h
  rwa [Real.arctan_zero] at this

theorem atan2_nonneg {y x : ℝ} (hy : 0 ≤ y) (hx : 0 ≤ x) : 0 ≤ atan2 y x := by
  unfold atan2
  split_ifs with h1 h2 h3 h4
  · exact arctan_nonneg' (div_nonneg hy h1.le)
  all_goals linarith [Real.pi_pos]

theorem hava_symm (lat1 lon1 lat2 lon2 : ℝ) :
    hava lat1 lon1 lat2 lon2 = hava lat2 lon2 lat1 lon1 := by
  unfold hava
  have h1 : radians (lat1 - lat2) / 2 = -(radians (lat2 - lat1) / 2) := by
    unfold radians; ring
  have h2 : radians (lon1 - lon2) / 2 = -(radians (lon2 - lon1) / 2) := by
    unfold radians; ring
  rw [h1, h2, Real.sin_neg, Real.sin_neg]
  ring

theorem hava_self (lat lon : ℝ) : hava lat lon lat lon = 0 := by
  unfold hava
  rw [sub_self, sub_self]
  have h0 : radians 0 / 2 = 0 := by unfold radians; ring
  rw [h0, Real.sin_zero]
  ring

/-- The distance from a point to itself is exactly zero in the model. -/
theorem haversine_km_self (lat lon : ℝ) : haversine_km lat lon lat lon = 0 := by
  unfold haversine_km
  rw [hava_self, Real.sqrt_zero, sub_zero, Real.sqrt_one]
  unfold atan2
  rw [if_pos one_pos, zero_div, Real.arctan_zero]
  ring

/-- C8: the distance primitive is symmetric, non-negative, and exactly zero
on identical points; it is the haversine great-circle formula with Earth
radius 6371.0 km (the definition `haversine_km` itself). -/
theorem claim_C8 (lat1 lon1 lat2 lon2 : ℝ) :
    haversine_km lat1 lon1 lat2 lon2 = haversine_km lat2 lon2 lat1 lon1 ∧
    0 ≤ haversine_km lat1 lon1 lat2 lon2 ∧
    haversine_km lat1 lon1 lat1 lon1 = 0 := by
  refine ⟨?_, ?_, haversine_km_self lat1 lon1⟩
  · unfold haversine_km
    rw [hava_symm]
  · unfold haversine_km
    have h := atan2_nonneg (Real.sqrt_nonneg (hava lat1 lon1 lat2 lon2))
      (Real.sqrt_nonneg (1 - hava lat1 lon1 lat2 lon2))
    positivity


/-! Facts about truncation and weight sums. -/

theorem intTrunc_intCast (n : ℤ) : intTrunc (n : ℚ) = n := by
  unfold intTrunc
  split_ifs with h
  · exact Int.floor_intCast n
  · exact Int.ceil_intCast n

theorem intTrunc_zero : intTrunc 0 = 0 := by
  simpa using intTrunc_intCast 0

theorem intTrunc_nonneg {q : ℚ} (h : 0 ≤ q) : 0 ≤ intTrunc q := by
  unfold intTrunc
  rw [if_pos h]
  exact Int.floor_nonneg.mpr h

theorem intTrunc_mono_of_nonneg {q1 q2 : ℚ} (h0 : 0 ≤ q1) (h : q1 ≤ q2) :
    intTrunc q1 ≤ intTrunc q2 := by
  unfold intTrunc
  rw [if_pos h0, if_pos (h0.trans h)]
  exact Int.floor_mono h

theorem sum_intCast_of_forall (l : List ℚ) (h : ∀ q ∈ l, ∃ n : ℤ, q = (n : ℚ)) :
    ∃ m : ℤ, l.sum = (m : ℚ) := by
  induction l with
  | nil => exact ⟨0, by simp⟩
  | cons a as ih =>
    obtain ⟨n, hn⟩ := h a (List.mem_cons_self a as)
    obtain ⟨m, hm⟩ := ih (fun q hq => h q (List.mem_cons_of_mem a hq))
    refine ⟨n + m, ?_⟩
    rw [List.sum_cons, hn, hm]
    push_cast
    ring

theorem sum_nonneg_of_forall (l : List ℚ) (h : ∀ q ∈ l, 0 ≤ q) : 0 ≤ l.sum := by
  induction l with
  | nil => simp
  | cons a as ih =>
    rw [List.sum_cons]
    exact add_nonneg (h a (List.mem_cons_self a as))
      (ih fun q hq => h q (List.mem_cons_of_mem a hq))

theorem sum_filter_weights_le (l : List ProjRow) (p1 p2 : ProjRow → Bool)
    (himp : ∀ x ∈ l, p1 x = true → p2 x = true)
    (hw : ∀ x ∈ l, 0 ≤ x.nrc_vin_count) :
    ((l.filter p1).map (fun p => p.nrc_vin_count)).sum ≤
      ((l.filter p2).map (fun p => p.nrc_vin_count)).sum := by
  induction l with
  | nil => simp
  | cons x xs ih =>
    have hx := hw x (List.mem_cons_self x xs)
    have ihx := ih (fun y hy => himp y (List.mem_cons_of_mem x hy))
      (fun y hy => hw y (List.mem_cons_of_mem x hy))
    cases h1 : p1 x with
    | true =>
      have h2 := himp x (List.mem_cons_self x xs) h1
      rw [List.filter_cons_of_pos h1, List.filter_cons_of_pos h2,
        List.map_cons, List.map_cons, List.sum_cons, List.sum_cons]
      exact add_le_add_left ihx _
    | false =>
      rw [List.filter_cons_of_neg (by simp [h1])]
      cases h2 : p2 x with
      | true =>
        rw [List.filter_cons_of_pos h2, List.map_cons, List.sum_cons]
        exact ihx.trans (le_add_of_nonneg_left hx)
      | false =>
        rw [List.filter_cons_of_neg (by simp [h2])]
        exact ihx

theorem sumWeightsWithin_mono (ws : WsRow) (dps : List ProjRow) {r1 r2 : ℝ}
    (hr : r1 ≤ r2) (hw : ∀ p ∈ dps, 0 ≤ p.nrc_vin_count) :
    sumWeightsWithin ws dps r1 ≤ sumWeightsWithin ws dps r2 := by
  unfold sumWeightsWithin
  refine sum_filter_weights_le dps _ _ (fun x _ hx => ?_) hw
  rw [decide_eq_true_eq] at hx ⊢
  exact hx.trans hr

theorem total_vins_eq_trunc_sum (ws : WsRow) (dps : List ProjRow) (r : ℝ) :
    total_vins ws dps r = intTrunc (sumWeightsWithin ws dps r) := rfl

/-! The loop of lines 103-114 as a state transformer: what it writes and
what it leaves alone. -/

theorem weights_within_congr (ws : WsRow) (r : ℝ) :
    ∀ l1 l2 : List ProjRow, l1.map coreProj = l2.map coreProj →
      (l1.filter (fun p =>
        decide (haversine_km ws.lat ws.lon p.lat p.lon ≤ r))).map (fun p => p.nrc_vin_count) =
      (l2.filter (fun p =>
        decide (haversine_km ws.lat ws.lon p.lat p.lon ≤ r))).map (fun p => p.nrc_vin_count) := by
  intro l1
  induction l1 with
  | nil =>
    intro l2 h
    cases l2 with
    | nil => rfl
    | cons q qs => simp at h
  | cons p ps ih =>
    intro l2 h
    cases l2 with
    | nil => simp at h
    | cons q qs =>
      simp only [List.map_cons, List.cons.injEq, coreProj, ProjRow.mk.injEq, and_true] at h
      obtain ⟨⟨hpin, hlat, hlon, hwt⟩, hps⟩ := h
      rw [List.filter_cons, List.filter_cons, hlat, hlon]
      by_cases hc : haversine_km ws.lat ws.lon q.lat q.lon ≤ r
      · simp [hc, hwt, ih qs hps]
      · simp [hc, ih qs hps]

theorem total_vins_congr_core (ws : WsRow) (r : ℝ) {l1 l2 : List ProjRow}
    (h : l1.map coreProj = l2.map coreProj) :
    total_vins ws l1 r = total_vins ws l2 r := by
  unfold total_vins
  rw [weights_within_congr ws r l1 l2 h]

theorem summaryRow_congr_core (r : ℝ) {l1 l2 : List ProjRow}
    (h : l1.map coreProj = l2.map coreProj) (ws : WsRow) :
    summaryRow l1 r ws = summaryRow l2 r ws := by
  unfold summaryRow
  rw [total_vins_congr_core ws r h]

theorem stored_filter_eq (ws : WsRow) (r : ℝ) (l : List ProjRow) :
    ((l.map (fun p =>
      { p with dist_km_to_ws := some (haversine_km ws.lat ws.lon p.lat p.lon) })).filter
        (fun p => decide (p.dist_km_to_ws.getD 0 ≤ r))).map (fun p => p.nrc_vin_count) =
    (l.filter (fun p =>
      decide (haversine_km ws.lat ws.lon p.lat p.lon ≤ r))).map (fun p => p.nrc_vin_count) := by
  induction l with
  | nil => rfl
  | cons p ps ih =>
    rw [List.map_cons, List.filter_cons, List.filter_cons]
    by_cases hc : haversine_km ws.lat ws.lon p.lat p.lon ≤ r
    · simp [hc, ih]
    · simp [hc, ih]

theorem coreProj_set_dist (p : ProjRow) (d : ℝ) :
    coreProj { p with dist_km_to_ws := some d } = coreProj p := rfl

theorem loopStep_eq (r : ℝ) (st : LoopState) (ws : WsRow) :
    loopStep r st ws =
      ⟨st.df_ws,
        st.df_proj.map (fun p =>
          { p with dist_km_to_ws := some (haversine_km ws.lat ws.lon p.lat p.lon) }),
        st.summary ++ [summaryRow st.df_proj r ws]⟩ := by
  have h := stored_filter_eq ws r st.df_proj
  simp only [loopStep, summaryRow, total_vins]
  rw [h]

theorem foldl_loopStep_spec (r : ℝ) :
    ∀ (l : List WsRow) (st : LoopState),
      (l.foldl (loopStep r) st).df_ws = st.df_ws ∧
      (l.foldl (loopStep r) st).df_proj.map coreProj = st.df_proj.map coreProj ∧
      (l.foldl (loopStep r) st).summary = st.summary ++ l.map (summaryRow st.df_proj r) := by
  intro l
  induction l with
  | nil => intro st; simp
  | cons w ws ih =>
    intro st
    rw [List.foldl_cons]
    obtain ⟨h1, h2, h3⟩ := ih (loopStep r st w)
    have hcore : (loopStep r st w).df_proj.map coreProj = st.df_proj.map coreProj := by
      rw [loopStep_eq, List.map_map]
      rfl
    have hrow : summaryRow (loopStep r st w).df_proj r = summaryRow st.df_proj r :=
      funext (fun x => summaryRow_congr_core r hcore x)
    refine ⟨?_, h2.trans hcore, ?_⟩
    · rw [h1, loopStep_eq]
    · rw [h3, hrow, loopStep_eq, List.map_cons]
      simp [List.append_assoc]

theorem runLoop_frame (wss : List WsRow) (dps : List ProjRow) (r : ℝ) :
    (runLoop wss dps r).df_ws = wss ∧
    (runLoop wss dps r).df_proj.map coreProj = dps.map coreProj ∧
    (runLoop wss dps r).summary = compute_coverage wss dps r := by
  obtain ⟨h1, h2, h3⟩ := foldl_loopStep_spec r wss ⟨wss, dps, []⟩
  unfold runLoop
  refine ⟨h1, h2, ?_⟩
  rw [h3]
  simp [compute_coverage]

/-- C1: for every input and every service location (by position), the
aggregated total is the weight-sum over exactly those demand points whose
great-circle distance to the workshop is at most `radius_km` (boundary
inclusive): with the data model's integer weights, the `int(...)` of line
107 is the identity, so the aggregate equals that sum exactly. -/
theorem claim_C1 (wss : List WsRow) (dps : List ProjRow) (radius_km : ℝ)
    (hw : ∀ p ∈ dps, ∃ n : ℤ, p.nrc_vin_count = (n : ℚ)) (i : ℕ) (hi : i < wss.length) :
    ∃ s : SummaryRow, (compute_coverage wss dps radius_km)[i]? = some s ∧
      (s.nrc_vin_count_within_radius : ℚ) = sumWeightsWithin wss[i] dps radius_km := by
  refine ⟨summaryRow dps radius_km wss[i], ?_, ?_⟩
  · unfold compute_coverage
    rw [List.getElem?_map, List.getElem?_eq_getElem hi]
    rfl
  · have h0 : (summaryRow dps radius_km wss[i]).nrc_vin_count_within_radius
        = intTrunc (sumWeightsWithin wss[i] dps radius_km) := rfl
    rw [h0]
    obtain ⟨m, hm⟩ := sum_intCast_of_forall
      ((dps.filter (fun p =>
        decide (haversine_km wss[i].lat wss[i].lon p.lat p.lon ≤ radius_km))).map
          (fun p => p.nrc_vin_count))
      (by
        intro q hq
        rw [List.mem_map] at hq
        obtain ⟨p, hp, rfl⟩ := hq
        exact hw p (List.mem_of_mem_filter hp))
    have hm' : sumWeightsWithin wss[i] dps radius_km = (m : ℚ) := hm
    rw [hm', intTrunc_intCast]

/-- Witness for C1 at one workshop, no demand points, radius 5. -/
theorem claim_C1_witness :
    (∀ p ∈ ([] : List ProjRow), ∃ n : ℤ, p.nrc_vin_count = (n : ℚ)) ∧ 0 < 1 ∧
    ∃ s : SummaryRow,
      (compute_coverage [⟨"W1", "600001", 12, 77⟩] [] 5)[0]? = some s ∧
      (s.nrc_vin_count_within_radius : ℚ) =
        sumWeightsWithin (([⟨"W1", "600001", 12, 77⟩] : List WsRow)[0]) [] 5 :=
  ⟨fun p hp => absurd hp (List.not_mem_nil p), Nat.zero_lt_one,
    claim_C1 [⟨"W1", "600001", 12, 77⟩] [] 5
      (fun p hp => absurd hp (List.not_mem_nil p)) 0 (by simp)⟩

/-- C2: the coverage computation yields exactly one result per service
location, in input order (so equal cardinality); with no service locations
the result is empty; with no demand points every total is 0. -/
theorem claim_C2 (wss : List WsRow) (dps : List ProjRow) (radius_km : ℝ) :
    (compute_coverage wss dps radius_km).length = wss.length ∧
    ((compute_coverage wss dps radius_km).map
      (fun s => (s.workshop_name, s.workshop_lat, s.workshop_lon))
      = wss.map (fun w => (w.workshop_name, w.lat, w.lon))) ∧
    compute_coverage [] dps radius_km = [] ∧
    (∀ s ∈ compute_coverage wss ([] : List ProjRow) radius_km,
      s.nrc_vin_count_within_radius = 0) := by
  refine ⟨?_, ?_, rfl, ?_⟩
  · unfold compute_coverage
    exact List.length_map wss _
  · unfold compute_coverage
    rw [List.map_map]
    rfl
  · intro s hs
    unfold compute_coverage at hs
    rw [List.mem_map] at hs
    obtain ⟨w, _, rfl⟩ := hs
    show total_vins w [] radius_km = 0
    rw [total_vins_eq_trunc_sum]
    exact intTrunc_zero

/-- Witness for C2's per-row clause at one workshop and no demand points. -/
theorem claim_C2_witness :
    summaryRow ([] : List ProjRow) 5 ⟨"W1", "600001", 12, 77⟩ ∈
      compute_coverage [⟨"W1", "600001", 12, 77⟩] ([] : List ProjRow) 5 ∧
    (summaryRow ([] : List ProjRow) 5
      ⟨"W1", "600001", 12, 77⟩).nrc_vin_count_within_radius = 0 :=
  ⟨by simp [compute_coverage],
    (claim_C2 [⟨"W1", "600001", 12, 77⟩] [] 5).2.2.2 _ (by simp [compute_coverage])⟩

/-- C3 (counterexample): the loop is not free of side effects on its inputs:
already its first iteration writes the `dist_km_to_ws` column into the
demand-point table (line 106), so `df_proj` after the loop differs from the
ingested `df_proj`. -/
theorem claim_C3_counterexample :
    (runLoop [⟨"W1", "600001", 12, 77⟩] [⟨"600002", 13, 78, 5, none⟩] 5).df_proj ≠
      [⟨"600002", 13, 78, 5, none⟩] := by
  intro h
  have h2 := congrArg (fun l => l.map (fun p => p.dist_km_to_ws)) h
  simp [runLoop, loopStep] at h2

/-- C3 (amended): the loop leaves the workshop table unchanged and preserves
every demand point's pincode, coordinates and weight; the only mutation is
the scratch `dist_km_to_ws` column it writes into the demand-point table. -/
theorem claim_C3 (wss : List WsRow) (dps : List ProjRow) (radius_km : ℝ) :
    (runLoop wss dps radius_km).df_ws = wss ∧
    (runLoop wss dps radius_km).df_proj.map coreProj = dps.map coreProj := by
  obtain ⟨h1, h2, _⟩ := runLoop_frame wss dps radius_km
  exact ⟨h1, h2⟩

/-- Exact evaluation of the distance a quarter of the way around the
equator: from (0,0) to (0,90) the haversine value is 6371·π/2 km. -/
theorem haversine_0_90 : haversine_km 0 0 0 90 = 6371 * (Real.pi / 2) := by
  have hsq : (Real.sqrt 2 / 2) ^ 2 = 1 / 2 := by
    rw [div_pow, Real.sq_sqrt (by norm_num : (0:ℝ) ≤ 2)]
    norm_num
  have h1 : hava 0 0 0 90 = 1 / 2 := by
    unfold hava radians
    rw [show ((0:ℝ) - 0) * (Real.pi / 180) / 2 = 0 by ring,
      show ((90:ℝ) - 0) * (Real.pi / 180) / 2 = Real.pi / 4 by ring,
      show (0:ℝ) * (Real.pi / 180) = 0 by ring,
      Real.sin_zero, Real.cos_zero, Real.sin_pi_div_four, hsq]
    ring
  unfold haversine_km
  rw [h1, show (1:ℝ) - 1 / 2 = 1 / 2 by norm_num]
  have hpos : 0 < Real.sqrt (1 / 2) := Real.sqrt_pos.mpr (by norm_num)
  unfold atan2
  rw [if_pos hpos, div_self hpos.ne', Real.arctan_one]
  ring

/-- C4 (counterexample): radius monotonicity fails without a non-negativity
assumption on the weights, which line 84 does not enforce: a demand point at
(0,90) with coerced weight -1 is outside radius 0 but inside radius 10008 km
of a workshop at (0,0), so the total drops from 0 to -1 as the radius grows. -/
theorem claim_C4_counterexample :
    (0 : ℝ) ≤ 10008 ∧
    ∃ s1 s2 : SummaryRow,
      (compute_coverage [⟨"W1", "600001", 0, 0⟩] [⟨"600002", 0, 90, -1, none⟩] 0)[0]?
        = some s1 ∧
      (compute_coverage [⟨"W1", "600001", 0, 0⟩] [⟨"600002", 0, 90, -1, none⟩] 10008)[0]?
        = some s2 ∧
      s2.nrc_vin_count_within_radius < s1.nrc_vin_count_within_radius := by
  have hgt : ¬ (haversine_km (0:ℝ) 0 0 90 ≤ 0) := by
    rw [haversine_0_90]
    simp only [not_le]
    positivity
  have hle : haversine_km (0:ℝ) 0 0 90 ≤ 10008 := by
    rw [haversine_0_90]
    nlinarith [Real.pi_lt_d6]
  have e1 : total_vins ⟨"W1", "600001", 0, 0⟩ [⟨"600002", 0, 90, -1, none⟩] 0 = 0 := by
    unfold total_vins
    rw [List.filter_cons_of_neg (by simp only [decide_eq_true_eq]; exact hgt)]
    simp [intTrunc_zero]
  have e2 : total_vins ⟨"W1", "600001", 0, 0⟩ [⟨"600002", 0, 90, -1, none⟩] 10008 = -1 := by
    unfold total_vins
    rw [List.filter_cons_of_pos (by simp only [decide_eq_true_eq]; exact hle)]
    norm_num [intTrunc]
    rw [show (-1 : ℚ) = ((-1 : ℤ) : ℚ) by norm_num, Int.ceil_intCast]
  refine ⟨by norm_num,
    summaryRow [⟨"600002", 0, 90, -1, none⟩] 0 ⟨"W1", "600001", 0, 0⟩,
    summaryRow [⟨"600002", 0, 90, -1, none⟩] 10008 ⟨"W1", "600001", 0, 0⟩,
    by simp [compute_coverage], by simp [compute_coverage], ?_⟩
  show total_vins ⟨"W1", "600001", 0, 0⟩ [⟨"600002", 0, 90, -1, none⟩] 10008
    < total_vins ⟨"W1", "600001", 0, 0⟩ [⟨"600002", 0, 90, -1, none⟩] 0
  rw [e1, e2]
  norm_num

/-- C4 (amended): with all demand weights non-negative (as the spec's data
model guarantees), enlarging the radius never decreases any service
location's total. -/
theorem claim_C4 (wss : List WsRow) (dps : List ProjRow) (r1 r2 : ℝ) (hr : r1 ≤ r2)
    (hw : ∀ p ∈ dps, 0 ≤ p.nrc_vin_count) (i : ℕ) (hi : i < wss.length) :
    ∃ s1 s2 : SummaryRow,
      (compute_coverage wss dps r1)[i]? = some s1 ∧
      (compute_coverage wss dps r2)[i]? = some s2 ∧
      s1.nrc_vin_count_within_radius ≤ s2.nrc_vin_count_within_radius := by
  refine ⟨summaryRow dps r1 wss[i], summaryRow dps r2 wss[i], ?_, ?_, ?_⟩
  · unfold compute_coverage
    rw [List.getElem?_map, List.getElem?_eq_getElem hi]
    rfl
  · unfold compute_coverage
    rw [List.getElem?_map, List.getElem?_eq_getElem hi]
    rfl
  · show total_vins wss[i] dps r1 ≤ total_vins wss[i] dps r2
    rw [total_vins_eq_trunc_sum, total_vins_eq_trunc_sum]
    have h0 : 0 ≤ sumWeightsWithin wss[i] dps r1 := by
      refine sum_nonneg_of_forall _ ?_
      intro q hq
      rw [List.mem_map] at hq
      obtain ⟨p, hp, rfl⟩ := hq
      exact hw p (List.mem_of_mem_filter hp)
    exact intTrunc_mono_of_nonneg h0 (sumWeightsWithin_mono wss[i] dps hr hw)

/-- Witness for C4 (amended) at one workshop, no demand points, radii 0 and 1. -/
theorem claim_C4_witness :
    (0:ℝ) ≤ 1 ∧ (∀ p ∈ ([] : List ProjRow), 0 ≤ p.nrc_vin_count) ∧ 0 < 1 ∧
    ∃ s1 s2 : SummaryRow,
      (compute_coverage [⟨"W1", "600001", 12, 77⟩] [] 0)[0]? = some s1 ∧
      (compute_coverage [⟨"W1", "600001", 12, 77⟩] [] 1)[0]? = some s2 ∧
      s1.nrc_vin_count_within_radius ≤ s2.nrc_vin_count_within_radius :=
  ⟨by norm_num, fun p hp => absurd hp (List.not_mem_nil p), Nat.zero_lt_one,
    claim_C4 [⟨"W1", "600001", 12, 77⟩] [] 0 1 (by norm_num)
      (fun p hp => absurd hp (List.not_mem_nil p)) 0 (by simp)⟩

/-- C9 (counterexample): line 84 coerces unparsable weights to 0 but does
not clamp negatives: a parsable weight -3 passes through, and a workshop
co-located with that demand point gets the negative total -3. -/
theorem claim_C9_counterexample :
    coerceWeight (some (-3)) = -3 ∧ coerceWeight (some (-3)) < 0 ∧
    ∃ s : SummaryRow,
      (compute_coverage [⟨"W1", "600001", 12, 77⟩]
        [⟨"600002", 12, 77, coerceWeight (some (-3)), none⟩] 0)[0]? = some s ∧
      s.nrc_vin_count_within_radius < 0 := by
  refine ⟨rfl, by norm_num [coerceWeight],
    summaryRow [⟨"600002", 12, 77, coerceWeight (some (-3)), none⟩] 0 ⟨"W1", "600001", 12, 77⟩,
    by simp [compute_coverage], ?_⟩
  show total_vins ⟨"W1", "600001", 12, 77⟩
    [⟨"600002", 12, 77, coerceWeight (some (-3)), none⟩] 0 < 0
  unfold total_vins
  rw [List.filter_cons_of_pos (by
    simp only [decide_eq_true_eq]
    exact le_of_eq (haversine_km_self 12 77))]
  norm_num [coerceWeight, intTrunc]
  rw [show (-3 : ℚ) = ((-3 : ℤ) : ℚ) by norm_num, Int.ceil_intCast]
  norm_num

/-- C9 (amended): the coercion maps unparsable weights to 0 and passes
parsable weights through unchanged (no clamping); whenever every ingested
weight is non-negative, every total is a non-negative integer. -/
theorem claim_C9 :
    coerceWeight none = 0 ∧ (∀ q : ℚ, coerceWeight (some q) = q) ∧
    ∀ (wss : List WsRow) (dps : List ProjRow) (radius_km : ℝ),
      (∀ p ∈ dps, 0 ≤ p.nrc_vin_count) →
      ∀ s ∈ compute_coverage wss dps radius_km, 0 ≤ s.nrc_vin_count_within_radius := by
  refine ⟨rfl, fun q => rfl, ?_⟩
  intro wss dps r hw s hs
  unfold compute_coverage at hs
  rw [List.mem_map] at hs
  obtain ⟨w, _, rfl⟩ := hs
  show 0 ≤ total_vins w dps r
  rw [total_vins_eq_trunc_sum]
  refine intTrunc_nonneg ?_
  refine sum_nonneg_of_forall _ ?_
  intro q hq
  rw [List.mem_map] at hq
  obtain ⟨p, hp, rfl⟩ := hq
  exact hw p (List.mem_of_mem_filter hp)

/-- Witness for C9 (amended) at one workshop and no demand points. -/
theorem claim_C9_witness :
    (∀ p ∈ ([] : List ProjRow), 0 ≤ p.nrc_vin_count) ∧
    summaryRow ([] : List ProjRow) 5 ⟨"W1", "600001", 12, 77⟩ ∈
      compute_coverage [⟨"W1", "600001", 12, 77⟩] ([] : List ProjRow) 5 ∧
    0 ≤ (summaryRow ([] : List ProjRow) 5
      ⟨"W1", "600001", 12, 77⟩).nrc_vin_count_within_radius :=
  ⟨fun p hp => absurd hp (List.not_mem_nil p), by simp [compute_coverage],
    claim_C9.2.2 [⟨"W1", "600001", 12, 77⟩] [] 5
      (fun p hp => absurd hp (List.not_mem_nil p)) _ (by simp [compute_coverage])⟩

/-! The spec-modelled ranker: descending order, a permutation, stable ties. -/

theorem insertDesc_perm (s : SummaryRow) :
    ∀ l : List SummaryRow, List.Perm (insertDesc s l) (s :: l)
  | [] => List.Perm.refl _
  | t :: ts => by
    unfold insertDesc
    by_cases h : t.nrc_vin_count_within_radius ≤ s.nrc_vin_count_within_radius
    · rw [if_pos h]
    · rw [if_neg h]
      exact (List.Perm.cons t (insertDesc_perm s ts)).trans (List.Perm.swap s t ts)

theorem pairwise_insertDesc (s : SummaryRow) :
    ∀ l : List SummaryRow,
      List.Pairwise
        (fun a b => b.nrc_vin_count_within_radius ≤ a.nrc_vin_count_within_radius) l →
      List.Pairwise
        (fun a b => b.nrc_vin_count_within_radius ≤ a.nrc_vin_count_within_radius)
        (insertDesc s l)
  | [], _ => by simp [insertDesc]
  | t :: ts, h => by
    rw [List.pairwise_cons] at h
    obtain ⟨ht, hts⟩ := h
    unfold insertDesc
    by_cases hc : t.nrc_vin_count_within_radius ≤ s.nrc_vin_count_within_radius
    · rw [if_pos hc, List.pairwise_cons]
      refine ⟨?_, List.pairwise_cons.mpr ⟨ht, hts⟩⟩
      intro x hx
      rcases List.mem_cons.mp hx with rfl | hx'
      · exact hc
      · exact (ht x hx').trans hc
    · rw [if_neg hc, List.pairwise_cons]
      refine ⟨?_, pairwise_insertDesc s ts hts⟩
      intro x hx
      rcases List.mem_cons.mp ((insertDesc_perm s ts).subset hx) with rfl | hx'
      · exact (not_le.mp hc).le
      · exact ht x hx'

theorem rank_sorted :
    ∀ l : List SummaryRow,
      List.Pairwise
        (fun a b => b.nrc_vin_count_within_radius ≤ a.nrc_vin_count_within_radius)
        (rank l)
  | [] => List.Pairwise.nil
  | s :: ss => pairwise_insertDesc s _ (rank_sorted ss)

theorem rank_perm :
    ∀ l : List SummaryRow, List.Perm (rank l) l
  | [] => List.Perm.refl _
  | s :: ss => (insertDesc_perm s _).trans (List.Perm.cons s (rank_perm ss))

theorem filter_insertDesc (k : ℤ) (s : SummaryRow) :
    ∀ l : List SummaryRow,
      List.Pairwise
        (fun a b => b.nrc_vin_count_within_radius ≤ a.nrc_vin_count_within_radius) l →
      (insertDesc s l).filter (fun t => t.nrc_vin_count_within_radius == k) =
        (if s.nrc_vin_count_within_radius == k
          then s :: l.filter (fun t => t.nrc_vin_count_within_radius == k)
          else l.filter (fun t => t.nrc_vin_count_within_radius == k))
  | [], _ => by
    by_cases hk : (s.nrc_vin_count_within_radius == k) = true
    · simp [insertDesc, List.filter_cons, hk]
    · simp [insertDesc, List.filter_cons, hk]
  | t :: ts, h => by
    rw [List.pairwise_cons] at h
    obtain ⟨ht, hts⟩ := h
    unfold insertDesc
    by_cases hc : t.nrc_vin_count_within_radius ≤ s.nrc_vin_count_within_radius
    · rw [if_pos hc]
      by_cases hk : (s.nrc_vin_count_within_radius == k) = true
      · simp [List.filter_cons, hk]
      · simp [List.filter_cons, hk]
    · rw [if_neg hc]
      by_cases hk : (s.nrc_vin_count_within_radius == k) = true
      · have hkeq : s.nrc_vin_count_within_radius = k := by simpa using hk
        have htk : ¬ ((t.nrc_vin_count_within_radius == k) = true) := by
          simp only [beq_iff_eq]
          intro h2
          exact hc (by rw [h2, ← hkeq])
        simp [List.filter_cons, htk, hk, filter_insertDesc k s ts hts]
      · simp [List.filter_cons, hk, filter_insertDesc k s ts hts]

theorem rank_stable (k : ℤ) :
    ∀ l : List SummaryRow,
      (rank l).filter (fun t => t.nrc_vin_count_within_radius == k) =
        l.filter (fun t => t.nrc_vin_count_within_radius == k)
  | [] => rfl
  | s :: ss => by
    show (insertDesc s (rank ss)).filter _ = _
    rw [filter_insertDesc k s _ (rank_sorted ss), rank_stable k ss]
    by_cases hk : (s.nrc_vin_count_within_radius == k) = true
    · simp [List.filter_cons, hk]
    · simp [List.filter_cons, hk]

/-- C5: the ranker contract of spec section 4.3, proved of the
spec-modelled `rank`: the ranked coverage results are sorted by total
descending, are a permutation of the unranked results, and rows with equal
totals keep their relative order from the pre-sort results (stable ties,
expressed as equality of the per-total filtered subsequences). This states
the ordering the spec requires, not a guarantee of the program: line 116
sorts with pandas' default quicksort kind, whose equal-key order is
unspecified, so the code does not ensure the stable-ties clause. -/
theorem claim_C5 (wss : List WsRow) (dps : List ProjRow) (radius_km : ℝ) :
    List.Pairwise
      (fun a b => b.nrc_vin_count_within_radius ≤ a.nrc_vin_count_within_radius)
      (rank (compute_coverage wss dps radius_km)) ∧
    List.Perm (rank (compute_coverage wss dps radius_km))
      (compute_coverage wss dps radius_km) ∧
    ∀ k : ℤ,
      (rank (compute_coverage wss dps radius_km)).filter
        (fun t => t.nrc_vin_count_within_radius == k) =
      (compute_coverage wss dps radius_km).filter
        (fun t => t.nrc_vin_count_within_radius == k) :=
  ⟨rank_sorted _, rank_perm _,
    fun k => rank_stable k _⟩

/-! Bubble sizing, lines 137-141. -/

theorem intTruncR_eq_floor {x : ℝ} (h : 0 ≤ x) : intTruncR x = ⌊x⌋ := by
  unfold intTruncR
  rw [if_pos h]

theorem sqrt_half_scaled_bounds :
    (5656 : ℝ) < 8000 * Real.sqrt (1 / 2) ∧ 8000 * Real.sqrt (1 / 2) < 5657 := by
  have hsq : Real.sqrt (1 / 2) ^ 2 = 1 / 2 := Real.sq_sqrt (by norm_num)
  have hnn : 0 ≤ Real.sqrt (1 / 2) := Real.sqrt_nonneg _
  constructor
  · nlinarith [hsq, hnn]
  · nlinarith [hsq, hnn]

theorem floor_8000_sqrt_half : ⌊(8000 : ℝ) * Real.sqrt (1 / 2)⌋ = 5656 := by
  obtain ⟨h1, h2⟩ := sqrt_half_scaled_bounds
  rw [Int.floor_eq_iff]
  constructor
  · push_cast
    linarith
  · push_cast
    linarith

theorem radius_m_1_2 : radius_m 1 2 = 5856 := by
  unfold radius_m
  rw [if_neg (by norm_num : ¬(2:ℤ) = 0)]
  rw [intTruncR_eq_floor (by positivity)]
  rw [show ((1:ℤ):ℝ) / ((2:ℤ):ℝ) = 1 / 2 by norm_num, floor_8000_sqrt_half]
  norm_num

/-- C6 (counterexample): the code's bubble mapping is not the claimed
closed form: at total 1 and maximum 2 the code computes
`200 + int(8000*sqrt(1/2)) = 5856` metres while the claimed formula gives
the irrationally-valued `200 + 8000*sqrt(1/2) > 5856`. -/
theorem claim_C6_counterexample : radius_m 1 2 ≠ bubble_size 1 2 200 8000 := by
  obtain ⟨h1, _⟩ := sqrt_half_scaled_bounds
  rw [radius_m_1_2]
  unfold bubble_size
  rw [if_neg (by norm_num : ¬(2:ℝ) = 0)]
  rw [show (1:ℝ) / 2 = 1 / 2 by norm_num]
  intro h
  linarith

/-- C6 (amended): the code's mapping truncates the extra term to a whole
number of metres: it equals
`min_size + (0 if max == 0 else int(max_extra * sqrt(total / max)))` with
the code's `min_size = 200`, `max_extra = 8000`; in that truncated form the
mapping is monotone non-decreasing in `total_weight`, bounded in
`[min_size, min_size + max_extra]`, and still satisfies
`bubble_size(0,100,5,20) = 5` and `bubble_size(100,100,5,20) = 25` (which
the spec's untruncated form satisfies as well). -/
theorem claim_C6 :
    (∀ c m : ℤ, radius_m c m = bubble_size_code (c : ℝ) (m : ℝ) 200 8000) ∧
    (∀ t1 t2 m mn ex : ℝ, 0 ≤ m → 0 ≤ ex → t1 ≤ t2 →
      bubble_size_code t1 m mn ex ≤ bubble_size_code t2 m mn ex) ∧
    (∀ t m mn ex : ℝ, 0 ≤ t → t ≤ m → 0 ≤ ex →
      mn ≤ bubble_size_code t m mn ex ∧ bubble_size_code t m mn ex ≤ mn + ex) ∧
    bubble_size_code 0 100 5 20 = 5 ∧ bubble_size_code 100 100 5 20 = 25 ∧
    bubble_size 0 100 5 20 = 5 ∧ bubble_size 100 100 5 20 = 25 := by
  refine ⟨?_, ?_, ?_, ?_, ?_, ?_, ?_⟩
  · intro c m
    unfold radius_m bubble_size_code
    by_cases hm : m = 0
    · subst hm
      simp
    · rw [if_neg hm, if_neg (by exact_mod_cast hm)]
  · intro t1 t2 m mn ex hm hex h12
    unfold bubble_size_code
    by_cases hm0 : m = 0
    · rw [if_pos hm0, if_pos hm0]
    · rw [if_neg hm0, if_neg hm0]
      have hmpos : 0 < m := lt_of_le_of_ne hm (Ne.symm hm0)
      have hdiv : t1 / m ≤ t2 / m := by gcongr
      have hmul : ex * Real.sqrt (t1 / m) ≤ ex * Real.sqrt (t2 / m) :=
        mul_le_mul_of_nonneg_left (Real.sqrt_le_sqrt hdiv) hex
      have h1 : 0 ≤ ex * Real.sqrt (t1 / m) := mul_nonneg hex (Real.sqrt_nonneg _)
      rw [intTruncR_eq_floor h1, intTruncR_eq_floor (h1.trans hmul)]
      have hfl := Int.floor_mono hmul
      have : ((⌊ex * Real.sqrt (t1 / m)⌋ : ℤ) : ℝ) ≤ ((⌊ex * Real.sqrt (t2 / m)⌋ : ℤ) : ℝ) := by
        exact_mod_cast hfl
      linarith
  · intro t m mn ex ht htm hex
    unfold bubble_size_code
    by_cases hm0 : m = 0
    · rw [if_pos hm0]
      constructor
      · linarith
      · linarith
    · rw [if_neg hm0]
      have hmpos : 0 < m := lt_of_le_of_ne (ht.trans htm) (Ne.symm hm0)
      have hval0 : 0 ≤ ex * Real.sqrt (t / m) := mul_nonneg hex (Real.sqrt_nonneg _)
      have hs1 : Real.sqrt (t / m) ≤ 1 := Real.sqrt_le_one.mpr ((div_le_one hmpos).mpr htm)
      have hvle : ex * Real.sqrt (t / m) ≤ ex := by nlinarith
      rw [intTruncR_eq_floor hval0]
      have hflnn : (0:ℝ) ≤ ((⌊ex * Real.sqrt (t / m)⌋ : ℤ) : ℝ) := by
        exact_mod_cast Int.floor_nonneg.mpr hval0
      have hfle : ((⌊ex * Real.sqrt (t / m)⌋ : ℤ) : ℝ) ≤ ex * Real.sqrt (t / m) :=
        Int.floor_le _
      constructor
      · linarith
      · linarith
  · unfold bubble_size_code
    rw [if_neg (by norm_num : ¬(100:ℝ) = 0),
      show (0:ℝ) / 100 = 0 by norm_num, Real.sqrt_zero, mul_zero,
      intTruncR_eq_floor le_rfl]
    norm_num
  · unfold bubble_size_code
    rw [if_neg (by norm_num : ¬(100:ℝ) = 0),
      show (100:ℝ) / 100 = 1 by norm_num, Real.sqrt_one, mul_one,
      intTruncR_eq_floor (by norm_num : (0:ℝ) ≤ 20),
      show (20:ℝ) = ((20:ℤ):ℝ) by norm_num, Int.floor_intCast]
    norm_num
  · unfold bubble_size
    rw [if_neg (by norm_num : ¬(100:ℝ) = 0),
      show (0:ℝ) / 100 = 0 by norm_num, Real.sqrt_zero]
    norm_num
  · unfold bubble_size
    rw [if_neg (by norm_num : ¬(100:ℝ) = 0),
      show (100:ℝ) / 100 = 1 by norm_num, Real.sqrt_one]
    norm_num

/-- Witness for C6 (amended) at total 50, maximum 100, minimum size 5,
maximum extra 20: the bubble size lies in [5, 25]. -/
theorem claim_C6_witness :
    (0:ℝ) ≤ 50 ∧ (50:ℝ) ≤ 100 ∧ (0:ℝ) ≤ 20 ∧
    5 ≤ bubble_size_code 50 100 5 20 ∧ bubble_size_code 50 100 5 20 ≤ 5 + 20 := by
  refine ⟨by norm_num, by norm_num, by norm_num, ?_, ?_⟩
  · exact (claim_C6.2.2.1 50 100 5 20 (by norm_num) (by norm_num) (by norm_num)).1
  · exact (claim_C6.2.2.1 50 100 5 20 (by norm_num) (by norm_num) (by norm_num)).2

end NRCCount
